import Mathlib

/-!
Verification of the segmentation and extraction engine of the
audio-linguist repository (src/audio-splitter.js).

The source is shallowly embedded: times and floating-point samples are
modelled as rationals, audio buffers as per-channel lists of samples,
and the WAV output as a list of byte values.  State-mutating loops of
the source become folds or index maps over lists.
-/

set_option maxHeartbeats 1000000
set_option maxRecDepth 2000

namespace AudioLinguist

/-- A transcription chunk (word/token): text plus the pair
`timestamp = (start, end)` in seconds, mirroring `word.text` and
`word.timestamp[0] / word.timestamp[1]` in the source. -/
structure Chunk where
  text : String
  timestamp : ℚ × ℚ
deriving DecidableEq

/-- An in-progress / emitted segment, mirroring the object literal built in
`findSegmentsByNumberPattern`:
`{ startTime, endTime, words, text, number }`. -/
structure Segment where
  startTime : ℚ
  endTime : ℚ
  words : List Chunk
  text : String
  number : ℕ
deriving DecidableEq

/-- The regular-expression test of the source,
`/^\d+$/.test(cleanText)`: nonempty and consisting solely of decimal
digits. -/
def isEnglishNumber (s : String) : Bool :=
  s.length > 0 && s.all Char.isDigit

/-- The close-or-drop rule applied at each of the three closing sites of
`findSegmentsByNumberPattern`: push the current segment to the emitted
list iff its duration reaches `minSegmentDuration`, otherwise discard. -/
def segClose (minSegmentDuration : ℚ) (segments : List Segment)
    (c : Segment) : List Segment :=
  if c.endTime - c.startTime ≥ minSegmentDuration then segments ++ [c]
  else segments

/-- One iteration of the word loop of `findSegmentsByNumberPattern`
(both copies of the function in the source are identical).  The state is
the pair (emitted segments, current open segment). -/
def findStep (minSegmentDuration : ℚ)
    (st : List Segment × Option Segment) (word : Chunk) :
    List Segment × Option Segment :=
  let cleanText := word.text.trim
  if isEnglishNumber cleanText then
    -- a number token: close-or-drop any open segment, then open a new one
    let segments :=
      match st.2 with
      | some currentSegment => segClose minSegmentDuration st.1 currentSegment
      | none => st.1
    (segments,
     some { startTime := word.timestamp.1
            endTime := word.timestamp.2
            words := [word]
            text := cleanText
            number := cleanText.toNat?.getD 0 })
  else
    match st.2 with
    | some currentSegment =>
        if word.timestamp.1 - currentSegment.startTime < 10 then
          -- absorb the word into the open segment
          (st.1,
           some { currentSegment with
                    endTime := word.timestamp.2
                    words := currentSegment.words ++ [word]
                    text := currentSegment.text ++ " " ++ cleanText })
        else
          -- too far from the segment start: close-or-drop, discard word
          (segClose minSegmentDuration st.1 currentSegment, none)
    | none => st

/-- The function findSegmentsByNumberPattern of the source: a fold of `findStep`
over the transcription chunks followed by the final close-or-drop of the
still-open segment. -/
def findSegmentsByNumberPattern (minSegmentDuration : ℚ)
    (words : List Chunk) : List Segment :=
  let st := words.foldl (findStep minSegmentDuration) ([], none)
  match st.2 with
  | some currentSegment => segClose minSegmentDuration st.1 currentSegment
  | none => st.1

/-! ### C1: every emitted segment reaches the minimum duration -/

lemma segClose_duration (minDur : ℚ) (segs : List Segment) (c : Segment)
    (h : ∀ s ∈ segs, minDur ≤ s.endTime - s.startTime) :
    ∀ s ∈ segClose minDur segs c, minDur ≤ s.endTime - s.startTime := by
  intro s hs
  unfold segClose at hs
  split at hs
  · rcases List.mem_append.1 hs with h' | h'
    · exact h s h'
    · rcases List.mem_singleton.1 h' with rfl
      assumption
  · exact h s hs

lemma findStep_duration (minDur : ℚ) (st : List Segment × Option Segment)
    (w : Chunk) (h : ∀ s ∈ st.1, minDur ≤ s.endTime - s.startTime) :
    ∀ s ∈ (findStep minDur st w).1, minDur ≤ s.endTime - s.startTime := by
  obtain ⟨segs, cur⟩ := st
  cases cur with
  | none =>
      by_cases hn : isEnglishNumber w.text.trim = true
      · simp only [findStep, hn, if_true]
        exact h
      · simp only [findStep, hn, if_false]
        exact h
  | some c =>
      by_cases hn : isEnglishNumber w.text.trim = true
      · simp only [findStep, hn, if_true]
        exact segClose_duration minDur segs c h
      · by_cases hgap : w.timestamp.1 - c.startTime < 10
        · simp only [findStep, hn, hgap, if_true, if_false]
          exact h
        · simp only [findStep, hn, hgap, if_false]
          exact segClose_duration minDur segs c h

lemma foldl_findStep_duration (minDur : ℚ) (ws : List Chunk) :
    ∀ st : List Segment × Option Segment,
      (∀ s ∈ st.1, minDur ≤ s.endTime - s.startTime) →
      ∀ s ∈ (ws.foldl (findStep minDur) st).1,
        minDur ≤ s.endTime - s.startTime := by
  induction ws with
  | nil => intro st h; simpa using h
  | cons w ws ih =>
      intro st h
      rw [List.foldl_cons]
      exact ih _ (findStep_duration minDur st w h)

/-- C1: for every input token sequence and every configured
minSegmentDuration, every segment emitted by
findSegmentsByNumberPattern satisfies
endTime − startTime ≥ minSegmentDuration; sub-minimum candidates are
dropped, never emitted. -/
theorem findSegments_minDuration (minSegmentDuration : ℚ)
    (words : List Chunk) (s : Segment)
    (hs : s ∈ findSegmentsByNumberPattern minSegmentDuration words) :
    minSegmentDuration ≤ s.endTime - s.startTime := by
  unfold findSegmentsByNumberPattern at hs
  dsimp only at hs
  have hfold := foldl_findStep_duration minSegmentDuration words ([], none)
    (by intro s hs; simp at hs)
  revert hs
  split
  · intro hs
    exact segClose_duration minSegmentDuration _ _ hfold s hs
  · intro hs
    exact hfold s hs

/-- The worked example of the spec: tokens 105 / hello / world with
minSegmentDuration = 2 give a single emitted segment. -/
def exTokens : List Chunk :=
  [⟨"105", (0, 2/5)⟩, ⟨"hello", (1/2, 1)⟩, ⟨"world", (11/10, 13/5)⟩]

/-- The segment the detector emits on `exTokens`. -/
def exSegment : Segment :=
  { startTime := 0
    endTime := 13/5
    words := exTokens
    text := "105 hello world"
    number := 105 }

/-- Witness for C1 at a concrete input. -/
theorem findSegments_minDuration_witness :
    (2 : ℚ) ≤ exSegment.endTime - exSegment.startTime :=
  findSegments_minDuration 2 exTokens exSegment
    (by with_unfolding_all decide)

/-! ### C2: ordering of emitted segments -/

/-- Default segment used as the fallback of positional lookups. -/
def dSeg : Segment :=
  { startTime := 0, endTime := 0, words := [], text := "", number := 0 }

/-- The emitted list is ordered and non-overlapping: every segment ends
no later than the next one starts. -/
def SegOrder (segs : List Segment) : Prop :=
  List.Chain' (fun a b => a.endTime ≤ b.startTime) segs

/-- Loop invariant of the detector relative to the remaining tokens:
emitted segments are ordered, the open segment (if any) starts after the
last emitted one ends, is itself ordered, and ends before every
remaining token starts; with no open segment, the last emitted segment
ends before every remaining token starts. -/
def detInv (st : List Segment × Option Segment) (rest : List Chunk) : Prop :=
  SegOrder st.1 ∧
  match st.2 with
  | some c =>
      (∀ p ∈ st.1.getLast?, p.endTime ≤ c.startTime) ∧
      c.startTime ≤ c.endTime ∧
      ∀ u ∈ rest, c.endTime ≤ u.timestamp.1
  | none =>
      ∀ p ∈ st.1.getLast?, ∀ u ∈ rest, p.endTime ≤ u.timestamp.1

lemma segClose_order (minDur : ℚ) (segs : List Segment) (c : Segment)
    (ho : SegOrder segs)
    (hl : ∀ p ∈ segs.getLast?, p.endTime ≤ c.startTime) :
    SegOrder (segClose minDur segs c) := by
  unfold segClose
  split
  · refine List.Chain'.append ho (List.chain'_singleton c) ?_
    intro x hx y hy
    simp only [List.head?_cons, Option.mem_def, Option.some.injEq] at hy
    subst hy
    exact hl x hx
  · exact ho

lemma segClose_last_le (minDur : ℚ) (segs : List Segment) (c : Segment)
    (q : ℚ) (hl : ∀ p ∈ segs.getLast?, p.endTime ≤ c.startTime)
    (hc : c.startTime ≤ c.endTime) (hq : c.endTime ≤ q) :
    ∀ p ∈ (segClose minDur segs c).getLast?, p.endTime ≤ q := by
  unfold segClose
  split
  · intro p hp
    rw [List.getLast?_concat] at hp
    simp only [Option.mem_def, Option.some.injEq] at hp
    subst hp
    exact hq
  · intro p hp
    exact le_trans (le_trans (hl p hp) hc) hq

lemma findStep_inv (minDur : ℚ) (st : List Segment × Option Segment)
    (w : Chunk) (rest : List Chunk) (hI : detInv st (w :: rest))
    (hw : w.timestamp.1 ≤ w.timestamp.2)
    (hsep : ∀ u ∈ rest, w.timestamp.2 ≤ u.timestamp.1) :
    detInv (findStep minDur st w) rest := by
  obtain ⟨segs, cur⟩ := st
  obtain ⟨ho, hrest⟩ := hI
  cases cur with
  | none =>
      by_cases hn : isEnglishNumber w.text.trim = true
      · simp only [findStep, hn, if_true]
        exact ⟨ho, fun p hp => hrest p hp w (List.mem_cons_self w rest),
          hw, hsep⟩
      · simp only [findStep, hn, if_false]
        exact ⟨ho, fun p hp u hu => hrest p hp u (List.mem_cons_of_mem w hu)⟩
  | some c =>
      obtain ⟨hlast, hse, hcend⟩ := hrest
      by_cases hn : isEnglishNumber w.text.trim = true
      · simp only [findStep, hn, if_true]
        refine ⟨segClose_order minDur segs c ho hlast, ?_, hw, hsep⟩
        exact segClose_last_le minDur segs c w.timestamp.1 hlast hse
          (hcend w (List.mem_cons_self w rest))
      · by_cases hgap : w.timestamp.1 - c.startTime < 10
        · simp only [findStep, hn, hgap, if_true, if_false]
          refine ⟨ho, hlast, ?_, hsep⟩
          exact le_trans hse
            (le_trans (hcend w (List.mem_cons_self w rest)) hw)
        · simp only [findStep, hn, hgap, if_false]
          refine ⟨segClose_order minDur segs c ho hlast, ?_⟩
          intro p hp u hu
          exact segClose_last_le minDur segs c u.timestamp.1 hlast hse
            (hcend u (List.mem_cons_of_mem w hu)) p hp

lemma foldl_findStep_inv (minDur : ℚ) : ∀ (ws : List Chunk)
    (st : List Segment × Option Segment), detInv st ws →
    (∀ t ∈ ws, t.timestamp.1 ≤ t.timestamp.2) →
    List.Pairwise (fun a b => a.timestamp.2 ≤ b.timestamp.1) ws →
    detInv (ws.foldl (findStep minDur) st) [] := by
  intro ws
  induction ws with
  | nil => intro st h _ _; simpa using h
  | cons w ws ih =>
      intro st h hwf hp
      rw [List.foldl_cons]
      rw [List.pairwise_cons] at hp
      exact ih _
        (findStep_inv minDur st w ws h (hwf w (List.mem_cons_self w ws)) hp.1)
        (fun t ht => hwf t (List.mem_cons_of_mem w ht)) hp.2

lemma findSegments_chain (minDur : ℚ) (ws : List Chunk)
    (hwf : ∀ t ∈ ws, t.timestamp.1 ≤ t.timestamp.2)
    (hsep : List.Pairwise (fun a b => a.timestamp.2 ≤ b.timestamp.1) ws) :
    SegOrder (findSegmentsByNumberPattern minDur ws) := by
  have hinv : detInv (ws.foldl (findStep minDur) ([], none)) [] :=
    foldl_findStep_inv minDur ws ([], none)
      ⟨List.chain'_nil, by intro p hp; simp at hp⟩ hwf hsep
  unfold findSegmentsByNumberPattern
  dsimp only
  rcases hst : ws.foldl (findStep minDur) ([], none) with ⟨segs, cur⟩
  rw [hst] at hinv
  cases cur with
  | none => exact hinv.1
  | some c =>
      obtain ⟨ho, hlast, _, _⟩ := hinv
      exact segClose_order minDur segs c ho hlast

/-- C2 (amended): for every token sequence whose tokens are
non-overlapping and ordered (each token has start ≤ end, and every
earlier token ends no later than any later token starts), any two
consecutive segments emitted by findSegmentsByNumberPattern satisfy
segment[i].endTime ≤ segment[i+1].startTime. -/
theorem findSegments_nonoverlapping (minSegmentDuration : ℚ)
    (words : List Chunk)
    (hwf : ∀ t ∈ words, t.timestamp.1 ≤ t.timestamp.2)
    (hsep : List.Pairwise (fun a b => a.timestamp.2 ≤ b.timestamp.1) words)
    (i : ℕ)
    (hi : i + 1 <
      (findSegmentsByNumberPattern minSegmentDuration words).length) :
    ((findSegmentsByNumberPattern minSegmentDuration words).getD i
      dSeg).endTime ≤
    ((findSegmentsByNumberPattern minSegmentDuration words).getD (i + 1)
      dSeg).startTime := by
  have hchain := findSegments_chain minSegmentDuration words hwf hsep
  unfold SegOrder at hchain
  rw [List.chain'_iff_get] at hchain
  have h1 : i < (findSegmentsByNumberPattern minSegmentDuration words).length :=
    lt_trans (Nat.lt_succ_self i) hi
  have h := hchain i (by omega)
  rwa [List.getD_eq_get _ _ h1, List.getD_eq_get _ _ hi]

/-- Tokens violating nothing in the claim as frozen: start times are
non-decreasing and each token has start ≤ end, yet tokens overlap. -/
def cTokens : List Chunk :=
  [⟨"1", (0, 1)⟩, ⟨"a", (1, 6)⟩, ⟨"7", (2, 3)⟩, ⟨"b", (3, 5)⟩]

/-- C2 counterexample: on cTokens (start times non-decreasing, each
token well-formed) the detector emits segments (0,6) and (2,5), and the
first ends after the second starts. -/
theorem findSegments_nonoverlapping_counterexample :
    List.Chain' (fun a b => a.timestamp.1 ≤ b.timestamp.1) cTokens ∧
    (∀ t ∈ cTokens, t.timestamp.1 ≤ t.timestamp.2) ∧
    (findSegmentsByNumberPattern 2 cTokens).map
      (fun s => (s.startTime, s.endTime)) = [(0, 6), (2, 5)] ∧
    ¬ (((findSegmentsByNumberPattern 2 cTokens).getD 0 dSeg).endTime ≤
       ((findSegmentsByNumberPattern 2 cTokens).getD 1 dSeg).startTime) := by
  refine ⟨?_, ?_, ?_, ?_⟩
  · simp only [cTokens, List.chain'_cons, List.chain'_singleton, and_true]
    with_unfolding_all decide
  · with_unfolding_all decide
  · with_unfolding_all decide
  · with_unfolding_all decide

/-- Tokens meeting the amended hypotheses, giving two segments. -/
def wTokens : List Chunk :=
  [⟨"1", (0, 1)⟩, ⟨"a", (1, 3)⟩, ⟨"2", (13, 14)⟩, ⟨"b", (14, 20)⟩]

/-- Witness for the amended C2 at a concrete input. -/
theorem findSegments_nonoverlapping_witness :
    ((findSegmentsByNumberPattern 2 wTokens).getD 0 dSeg).endTime ≤
    ((findSegmentsByNumberPattern 2 wTokens).getD 1 dSeg).startTime :=
  findSegments_nonoverlapping 2 wTokens
    (by with_unfolding_all decide) (by with_unfolding_all decide) 0
    (by with_unfolding_all decide)

/-! ### Audio buffers and extraction -/

/-- A decoded Web Audio buffer: per-channel sample arrays (floats
modelled as rationals) plus the sample rate.  The Web Audio API keeps
every channel array at the frame length of the buffer. -/
structure AudioBuffer where
  sampleRate : ℕ
  channels : List (List ℚ)
deriving DecidableEq

/-- numberOfChannels of a buffer. -/
def AudioBuffer.numberOfChannels (b : AudioBuffer) : ℕ := b.channels.length

/-- buffer.length, the frame count: the length of channel 0, which the
API keeps equal to every channel's length. -/
def AudioBuffer.length (b : AudioBuffer) : ℕ := (b.channels.headD []).length

/-- channelData[i] for an integer index: the in-range sample, 0
otherwise.  (A negative source index never arises for the non-negative
start times of real descriptors.) -/
def getSample (channelData : List ℚ) (i : ℤ) : ℚ :=
  if 0 ≤ i then channelData.getD i.toNat 0 else 0

/-- The body of the extraction loop of extractSegmentsFromTimestamps
for one descriptor: startSample and endSample are floors of time ×
rate, createBuffer allocates a zero-filled buffer of
segmentLength = endSample − startSample frames per channel, and the
copy loop overwrites exactly the positions whose source index is in
range.  createBuffer throws for a non-positive length, modelled as
none. -/
def extractOne (src : AudioBuffer) (startTime endTime : ℚ) :
    Option AudioBuffer :=
  let startSample : ℤ := ⌊startTime * (src.sampleRate : ℚ)⌋
  let endSample : ℤ := ⌊endTime * (src.sampleRate : ℚ)⌋
  let segmentLength : ℤ := endSample - startSample
  if 0 < segmentLength then
    some { sampleRate := src.sampleRate
           channels := src.channels.map (fun channelData =>
             (List.range segmentLength.toNat).map (fun (sample : ℕ) =>
               let sourceIndex : ℤ := startSample + (sample : ℤ)
               if sourceIndex < (channelData.length : ℤ) then
                 getSample channelData sourceIndex
               else 0)) }
  else none

/-- An element of the list built by extractSegmentsFromTimestamps. -/
structure AudioSegment where
  id : ℕ
  startTime : ℚ
  endTime : ℚ
  duration : ℚ
  text : String
  buffer : AudioBuffer
  words : List Chunk

/-- extractSegmentsFromTimestamps of the source: one AudioSegment per
descriptor, in order, with 1-based ids; a failing buffer creation
aborts the whole extraction. -/
def extractSegmentsFromTimestamps (src : AudioBuffer)
    (segments : List Segment) : Option (List AudioSegment) :=
  segments.enum.mapM (fun p =>
    (extractOne src p.2.startTime p.2.endTime).map (fun segmentBuffer =>
      { id := p.1 + 1
        startTime := p.2.startTime
        endTime := p.2.endTime
        duration := p.2.endTime - p.2.startTime
        text := p.2.text
        buffer := segmentBuffer
        words := p.2.words }))

lemma getD_map_range {α : Type} (n : ℕ) (f : ℕ → α) (i : ℕ) (d : α)
    (h : i < n) : ((List.range n).map f).getD i d = f i := by
  have hlen : i < ((List.range n).map f).length := by simpa using h
  rw [List.getD_eq_get _ _ hlen]
  simp [List.get_map]

lemma getD_map {α β : Type} (l : List α) (f : α → β) (j : ℕ) (d : β)
    (d' : α) (h : j < l.length) : (l.map f).getD j d = f (l.getD j d') := by
  have h' : j < (l.map f).length := by simpa using h
  rw [List.getD_eq_get _ _ h', List.getD_eq_get _ _ h]
  simp [List.get_map]

/-- Unfolding of extractOne on the success path. -/
lemma extractOne_pos (src : AudioBuffer) (s e : ℚ)
    (h : 0 < ⌊e * (src.sampleRate : ℚ)⌋ - ⌊s * (src.sampleRate : ℚ)⌋) :
    extractOne src s e = some
      { sampleRate := src.sampleRate
        channels := src.channels.map (fun channelData =>
          (List.range (⌊e * (src.sampleRate : ℚ)⌋ -
              ⌊s * (src.sampleRate : ℚ)⌋).toNat).map (fun (sample : ℕ) =>
            if ⌊s * (src.sampleRate : ℚ)⌋ + (sample : ℤ) <
                (channelData.length : ℤ) then
              getSample channelData
                (⌊s * (src.sampleRate : ℚ)⌋ + (sample : ℤ))
            else 0)) } := by
  unfold extractOne
  dsimp only
  rw [if_pos h]

/-- On the success path, every channel of the extracted buffer has the
computed length. -/
lemma extractOne_lengths (src : AudioBuffer) (s e : ℚ)
    (h : 0 < ⌊e * (src.sampleRate : ℚ)⌋ - ⌊s * (src.sampleRate : ℚ)⌋) :
    (extractOne src s e).map (fun b => b.channels.map List.length) =
      some (src.channels.map (fun _ =>
        (⌊e * (src.sampleRate : ℚ)⌋ -
         ⌊s * (src.sampleRate : ℚ)⌋).toNat)) := by
  rw [extractOne_pos src s e h]
  simp only [Option.map_some']
  congr 1
  rw [List.map_map]
  refine List.map_congr_left ?_
  intro ch _
  simp

/-! ### C5: per-channel sample length of an extracted buffer -/

/-- C5: whenever extraction of a descriptor succeeds (the computed
sample count is positive), every channel of the resulting SegmentBuffer
has length floor(end·rate) − floor(start·rate). -/
theorem extract_length (src : AudioBuffer) (s e : ℚ) (b : AudioBuffer)
    (hb : extractOne src s e = some b) :
    b.channels.map (fun ch => (ch.length : ℤ)) =
      src.channels.map (fun _ =>
        ⌊e * (src.sampleRate : ℚ)⌋ - ⌊s * (src.sampleRate : ℚ)⌋) := by
  unfold extractOne at hb
  dsimp only at hb
  by_cases h : 0 < ⌊e * (src.sampleRate : ℚ)⌋ - ⌊s * (src.sampleRate : ℚ)⌋
  · rw [if_pos h] at hb
    injection hb with hb
    subst hb
    rw [List.map_map]
    refine List.map_congr_left ?_
    intro ch _
    simp [Int.toNat_of_nonneg h.le]
  · rw [if_neg h] at hb
    cases hb

/-- Witness for C5 at a concrete mono source. -/
theorem extract_length_witness :
    (AudioBuffer.mk 16000 [[0]]).channels.map (fun ch => (ch.length : ℤ)) =
      (AudioBuffer.mk 16000 [[0]]).channels.map (fun _ =>
        ⌊(1 / 16000 : ℚ) * ((16000 : ℕ) : ℚ)⌋ -
        ⌊(0 : ℚ) * ((16000 : ℕ) : ℚ)⌋) :=
  extract_length (AudioBuffer.mk 16000 [[0]]) 0 (1 / 16000)
    (AudioBuffer.mk 16000 [[0]]) (by with_unfolding_all rfl)

/-! ### C4: the claimed round((end−start)·rate) length formula -/

/-- Defined from the spec's words, for comparison with the code: the
rounding the claim uses, JS Math.round, floor of x + 1/2. -/
def specRound (q : ℚ) : ℤ := ⌊q + 1 / 2⌋

/-- C4 counterexample: at rate 16000 the descriptor
(start 9/160000, end 1/16000) has end > start; the code produces a
one-sample buffer while round((end − start) · rate) = round(0.1) = 0. -/
theorem extract_length_round_counterexample :
    ((extractOne (AudioBuffer.mk 16000 [[0]]) (9 / 160000)
        (1 / 16000)).map (fun b => b.channels.map List.length)) =
      some [1] ∧
    specRound (((1 / 16000 : ℚ) - 9 / 160000) * 16000) = 0 ∧
    (1 : ℕ) ≠ 0 := by
  refine ⟨by with_unfolding_all rfl, by with_unfolding_all rfl, by decide⟩

/-- C4 (amended): whenever the computed sample count
floor(end·rate) − floor(start·rate) is positive, extraction yields a
SegmentBuffer whose per-channel sample length equals that count (which
can differ from round((end−start)·rate)). -/
theorem extract_length_floor (src : AudioBuffer) (s e : ℚ)
    (h : 0 < ⌊e * (src.sampleRate : ℚ)⌋ - ⌊s * (src.sampleRate : ℚ)⌋) :
    (extractOne src s e).map (fun b => b.channels.map List.length) =
      some (src.channels.map (fun _ =>
        (⌊e * (src.sampleRate : ℚ)⌋ -
         ⌊s * (src.sampleRate : ℚ)⌋).toNat)) :=
  extractOne_lengths src s e h

/-- Witness for the amended C4 at a concrete input. -/
theorem extract_length_floor_witness :
    (extractOne (AudioBuffer.mk 16000 [[0]]) 0 (1 / 16000)).map
        (fun b => b.channels.map List.length) =
      some ((AudioBuffer.mk 16000 [[0]]).channels.map (fun _ =>
        (⌊(1 / 16000 : ℚ) *
            ((AudioBuffer.mk 16000 [[0]]).sampleRate : ℚ)⌋ -
         ⌊(0 : ℚ) *
            ((AudioBuffer.mk 16000 [[0]]).sampleRate : ℚ)⌋).toNat)) :=
  extract_length_floor (AudioBuffer.mk 16000 [[0]]) 0 (1 / 16000)
    (by with_unfolding_all decide)

/-! ### C9: defensive zero padding past the end of the source -/

/-- C9: for every accepted descriptor whose computed sample range
extends past the end of the source signal, extraction still returns a
buffer of the full computed length, with out-of-range sample positions
left at the zero fill of createBuffer, and never errors. -/
theorem extract_zeroPad (src : AudioBuffer) (s e : ℚ)
    (hpos : 0 < ⌊e * (src.sampleRate : ℚ)⌋ - ⌊s * (src.sampleRate : ℚ)⌋)
    (hover : (src.length : ℤ) < ⌊e * (src.sampleRate : ℚ)⌋) :
    ((extractOne src s e).map (fun b => b.channels.map List.length) =
      some (src.channels.map (fun _ =>
        (⌊e * (src.sampleRate : ℚ)⌋ -
         ⌊s * (src.sampleRate : ℚ)⌋).toNat))) ∧
    ∀ j, j < src.channels.length → ∀ i : ℕ,
      (i : ℤ) < ⌊e * (src.sampleRate : ℚ)⌋ - ⌊s * (src.sampleRate : ℚ)⌋ →
      ((src.channels.getD j []).length : ℤ) ≤
        ⌊s * (src.sampleRate : ℚ)⌋ + (i : ℤ) →
      (extractOne src s e).map (fun b => (b.channels.getD j []).getD i 1) =
        some 0 := by
  refine ⟨extractOne_lengths src s e hpos, ?_⟩
  intro j hj i hiL hchlen
  rw [extractOne_pos src s e hpos]
  simp only [Option.map_some', Option.some.injEq]
  rw [getD_map src.channels _ j [] [] hj]
  have hi' : i < (⌊e * (src.sampleRate : ℚ)⌋ -
      ⌊s * (src.sampleRate : ℚ)⌋).toNat := by omega
  rw [getD_map_range _ _ _ _ hi']
  exact if_neg (not_lt.2 hchlen)

/-- Witness for C9: a one-sample mono source, a descriptor asking for
two samples; the second output sample is the zero fill. -/
theorem extract_zeroPad_witness :
    (extractOne (AudioBuffer.mk 16000 [[1/2]]) 0 (1/8000)).map
      (fun b => (b.channels.getD 0 []).getD 1 1) = some 0 :=
  (extract_zeroPad (AudioBuffer.mk 16000 [[1/2]]) 0 (1/8000)
      (by with_unfolding_all decide) (by with_unfolding_all decide)).2
    0 (by with_unfolding_all decide) 1 (by with_unfolding_all decide)
    (by with_unfolding_all decide)

/-! ### C3: which buffer extraction reads from -/

/-- The mono downmix loop of convertAudioTo16kMono (second
implementation, lines 911-940): a single channel is copied sample by
sample; several channels are averaged over all channels at each
index. -/
def convertDownmix (originalBuffer : AudioBuffer) : List ℚ :=
  if originalBuffer.numberOfChannels = 1 then
    (List.range originalBuffer.length).map
      (fun i => (originalBuffer.channels.headD []).getD i 0)
  else
    (List.range originalBuffer.length).map
      (fun i =>
        (originalBuffer.channels.map (fun ch => ch.getD i 0)).sum /
          (originalBuffer.numberOfChannels : ℚ))

/-- Modelled from the spec: the OfflineAudioContext rendering used for
resampling is a platform collaborator, not code of this repository.
Per the spec the rendered output is mono at the target rate 16000 with
length ceil(inputLength · 16000 / inputRate); the sample contents
depend on the platform resampler and are abstracted as interp. -/
def offlineResample16k (interp : ℕ → ℚ) (monoLen inRate : ℕ) :
    AudioBuffer :=
  { sampleRate := 16000
    channels :=
      [(List.range (⌈(monoLen * 16000 : ℚ) / (inRate : ℚ)⌉).toNat).map
        interp] }

/-- convertAudioTo16kMono of the second implementation: an
already-mono-16 kHz buffer is kept; otherwise the buffer is downmixed
to mono and, when its rate differs from 16000, resampled.  The result
replaces this.audioBuffer — the buffer extraction later reads. -/
def convertAudioTo16kMono (interp : ℕ → ℚ)
    (originalBuffer : AudioBuffer) : AudioBuffer :=
  if originalBuffer.numberOfChannels = 1 ∧
      originalBuffer.sampleRate = 16000 then
    originalBuffer
  else
    let monoData := convertDownmix originalBuffer
    if originalBuffer.sampleRate ≠ 16000 then
      offlineResample16k interp monoData.length originalBuffer.sampleRate
    else
      { sampleRate := originalBuffer.sampleRate, channels := [monoData] }

/-- A 2-channel 44100 Hz decoded buffer. -/
def stereoBuf : AudioBuffer := AudioBuffer.mk 44100 [[1], [-1]]

/-- C3 evaluation: in the second implementation the converted mono
16 kHz buffer replaces this.audioBuffer before extraction, so the
extracted SegmentBuffer has 1 channel at 16000 Hz although the decoded
source has 2 channels at 44100 Hz — extraction does not read the
original decoded signal. -/
theorem extract_source_fidelity_bug :
    ((extractOne (convertAudioTo16kMono (fun _ => 0) stereoBuf) 0
        (1/16000)).map
      (fun b => (b.numberOfChannels, b.sampleRate))) = some (1, 16000) ∧
    (stereoBuf.numberOfChannels, stereoBuf.sampleRate) = (2, 44100) :=
  ⟨by with_unfolding_all rfl, by with_unfolding_all rfl⟩

/-! ### C8: the downmix rule -/

/-- The downmix step of resampleTo16kMono (first implementation, lines
186-199): a mono buffer passes through; otherwise only channels 0 and 1
are averaged ("Downmix stereo to mono"). -/
def resampleDownmix (audioBuffer : AudioBuffer) : List ℚ :=
  if audioBuffer.numberOfChannels = 1 then audioBuffer.channels.headD []
  else
    (List.range audioBuffer.length).map
      (fun i =>
        ((audioBuffer.channels.getD 0 []).getD i 0 +
         (audioBuffer.channels.getD 1 []).getD i 0) / 2)

lemma map_range_getD {α : Type} (l : List α) (d : α) :
    (List.range l.length).map (fun i => l.getD i d) = l := by
  apply List.ext_get
  · simp
  · intro n h1 h2
    have h2' : n < l.length := h2
    simp only [List.get_map, List.get_range]
    rw [List.getD_eq_get _ _ h2']

/-- A 3-channel one-frame buffer. -/
def triBuf : AudioBuffer := AudioBuffer.mk 44100 [[1], [0], [1]]

/-- C8 counterexample: on a 3-channel input, resampleTo16kMono averages
only channels 0 and 1, giving 1/2, while the arithmetic mean over all
channels is 2/3. -/
theorem downmix_mean_counterexample :
    resampleDownmix triBuf = [1/2] ∧
    (triBuf.channels.map (fun ch => ch.getD 0 0)).sum /
        (triBuf.numberOfChannels : ℚ) = 2/3 ∧
    resampleDownmix triBuf ≠
      [(triBuf.channels.map (fun ch => ch.getD 0 0)).sum /
        (triBuf.numberOfChannels : ℚ)] := by
  refine ⟨by with_unfolding_all rfl, by with_unfolding_all rfl, ?_⟩
  intro hcontra
  have h1 : resampleDownmix triBuf = [1/2] := by with_unfolding_all rfl
  have h2 : (triBuf.channels.map (fun ch => ch.getD 0 0)).sum /
      (triBuf.numberOfChannels : ℚ) = 2/3 := by with_unfolding_all rfl
  rw [h1, h2] at hcontra
  have : (1/2 : ℚ) = 2/3 := List.singleton_injective hcontra
  norm_num at this

/-- C8 (amended): convertAudioTo16kMono averages over all channels at
each index (and copies a mono input unchanged), exactly as claimed; the
downmix of resampleTo16kMono averages only channels 0 and 1, so on
inputs with more than one channel it equals the all-channel arithmetic
mean exactly when the input has two channels; a mono input also passes
through unchanged there. -/
theorem downmix_mean :
    (∀ b : AudioBuffer, 1 < b.numberOfChannels → ∀ i, i < b.length →
      (convertDownmix b).getD i 0 =
        (b.channels.map (fun ch => ch.getD i 0)).sum /
          (b.numberOfChannels : ℚ)) ∧
    (∀ b : AudioBuffer, b.numberOfChannels = 1 →
      convertDownmix b = b.channels.headD []) ∧
    (∀ b : AudioBuffer, b.numberOfChannels = 2 → ∀ i, i < b.length →
      (resampleDownmix b).getD i 0 =
        (b.channels.map (fun ch => ch.getD i 0)).sum /
          (b.numberOfChannels : ℚ)) ∧
    (∀ b : AudioBuffer, b.numberOfChannels = 1 →
      resampleDownmix b = b.channels.headD []) := by
  refine ⟨?_, ?_, ?_, ?_⟩
  · intro b hb i hi
    unfold convertDownmix
    rw [if_neg (by omega)]
    exact getD_map_range _ _ _ _ hi
  · intro b hb
    unfold convertDownmix
    rw [if_pos hb]
    have : b.length = (b.channels.headD []).length := rfl
    rw [this, map_range_getD]
  · intro b hb i hi
    obtain ⟨c0, c1, hch⟩ := List.length_eq_two.1 hb
    unfold resampleDownmix
    rw [if_neg (by omega)]
    rw [getD_map_range _ _ _ _ hi]
    rw [hch]
    simp only [List.getD_cons_zero, List.getD_cons_succ, List.map_cons,
      List.map_nil, List.sum_cons, List.sum_nil]
    have hn : ((AudioBuffer.mk b.sampleRate b.channels).numberOfChannels : ℚ)
        = (b.numberOfChannels : ℚ) := rfl
    rw [show (b.numberOfChannels : ℚ) = 2 by rw [hb]; norm_num]
    ring
  · intro b hb
    unfold resampleDownmix
    rw [if_pos hb]

/-- Witness for the amended C8 at concrete buffers. -/
theorem downmix_mean_witness :
    (convertDownmix triBuf).getD 0 0 =
      (triBuf.channels.map (fun ch => ch.getD 0 0)).sum /
        (triBuf.numberOfChannels : ℚ) ∧
    (resampleDownmix (AudioBuffer.mk 44100 [[1], [0]])).getD 0 0 =
      ((AudioBuffer.mk 44100 [[1], [0]]).channels.map
          (fun ch => ch.getD 0 0)).sum /
        ((AudioBuffer.mk 44100 [[1], [0]]).numberOfChannels : ℚ) ∧
    convertDownmix (AudioBuffer.mk 44100 [[1/4]]) =
      (AudioBuffer.mk 44100 [[1/4]]).channels.headD [] :=
  ⟨downmix_mean.1 triBuf (by decide) 0 (by with_unfolding_all decide),
   downmix_mean.2.2.1 (AudioBuffer.mk 44100 [[1], [0]]) (by decide) 0
     (by with_unfolding_all decide),
   downmix_mean.2.1 (AudioBuffer.mk 44100 [[1/4]]) (by decide)⟩

/-! ### The WAV encoder bufferToWav -/

/-- writeString of the source: the byte codes of an ASCII marker. -/
def asciiBytes (s : String) : List ℕ := s.data.map Char.toNat

/-- setUint32 little-endian: four bytes, least significant first (the
caller passes the value already reduced mod 2^32, the ToUint32 step). -/
def u32leBytes (v : ℕ) : List ℕ :=
  [v % 256, v / 256 % 256, v / 65536 % 256, v / 16777216 % 256]

/-- setUint16 little-endian: two bytes, least significant first. -/
def u16leBytes (v : ℕ) : List ℕ := [v % 256, v / 256 % 256]

/-- Truncation toward zero: the ToInteger step of setInt16. -/
def ratTrunc (q : ℚ) : ℤ := if 0 ≤ q then ⌊q⌋ else ⌈q⌉

/-- The per-sample conversion of bufferToWav: clamp to [-1, 1] with
Math.max / Math.min, scale a negative sample by 0x8000 = 32768 and a
non-negative one by 0x7FFF = 32767, then truncate to an integer. -/
def pcm16 (x : ℚ) : ℤ :=
  let sample := max (-1 : ℚ) (min 1 x)
  ratTrunc (if sample < 0 then sample * 32768 else sample * 32767)

/-- setInt16 little-endian: the two bytes of the 16-bit
two's-complement representation, least significant first. -/
def i16leBytes (z : ℤ) : List ℕ := u16leBytes (z.emod 65536).toNat

/-- The sample-writing loop of bufferToWav over channel 0. -/
def pcmData : List ℚ → List ℕ
  | [] => []
  | x :: xs => i16leBytes (pcm16 x) ++ pcmData xs

/-- The 44-byte header written by bufferToWav, as the sequence of its
writes at offsets 0..43. -/
def wavHeader (sampleRate length : ℕ) : List ℕ :=
  asciiBytes ("RIFF") ++ u32leBytes ((36 + length * 2) % 4294967296) ++
  asciiBytes ("WAVE") ++ asciiBytes ("fmt ") ++
  u32leBytes 16 ++ u16leBytes 1 ++ u16leBytes 1 ++
  u32leBytes (sampleRate % 4294967296) ++
  u32leBytes (sampleRate * 2 % 4294967296) ++
  u16leBytes 2 ++ u16leBytes 16 ++
  asciiBytes ("data") ++ u32leBytes (length * 2 % 4294967296)

/-- bufferToWav of the source: the 44-byte header followed by the
16-bit samples of channel 0 (the loop bound buffer.length equals
channel 0's length). -/
def bufferToWav (buffer : AudioBuffer) : List ℕ :=
  wavHeader buffer.sampleRate buffer.length ++
    pcmData (buffer.channels.headD [])

/-- The little-endian 16-bit value stored at a byte offset. -/
def decodeU16le (bytes : List ℕ) (off : ℕ) : ℕ :=
  bytes.getD off 0 + 256 * bytes.getD (off + 1) 0

/-- The little-endian 32-bit value stored at a byte offset. -/
def decodeU32le (bytes : List ℕ) (off : ℕ) : ℕ :=
  bytes.getD off 0 + 256 * bytes.getD (off + 1) 0 +
  65536 * bytes.getD (off + 2) 0 + 16777216 * bytes.getD (off + 3) 0

lemma wavHeader_length (r n : ℕ) : (wavHeader r n).length = 44 := rfl

/-- Normal form of the header: the 44 bytes in write order. -/
lemma wavHeader_eq (r n : ℕ) : wavHeader r n = [
    82, 73, 70, 70,
    (36 + n * 2) % 4294967296 % 256, (36 + n * 2) % 4294967296 / 256 % 256,
    (36 + n * 2) % 4294967296 / 65536 % 256,
    (36 + n * 2) % 4294967296 / 16777216 % 256,
    87, 65, 86, 69,
    102, 109, 116, 32,
    16, 0, 0, 0,
    1, 0,
    1, 0,
    r % 4294967296 % 256, r % 4294967296 / 256 % 256,
    r % 4294967296 / 65536 % 256, r % 4294967296 / 16777216 % 256,
    r * 2 % 4294967296 % 256, r * 2 % 4294967296 / 256 % 256,
    r * 2 % 4294967296 / 65536 % 256, r * 2 % 4294967296 / 16777216 % 256,
    2, 0,
    16, 0,
    100, 97, 116, 97,
    n * 2 % 4294967296 % 256, n * 2 % 4294967296 / 256 % 256,
    n * 2 % 4294967296 / 65536 % 256,
    n * 2 % 4294967296 / 16777216 % 256] :=
  rfl

lemma wav_decode4 (r n : ℕ) (pcm : List ℕ) :
    decodeU32le (wavHeader r n ++ pcm) 4 = (36 + n * 2) % 4294967296 := by
  have e : decodeU32le (wavHeader r n ++ pcm) 4 =
      (36 + n * 2) % 4294967296 % 256 +
      256 * ((36 + n * 2) % 4294967296 / 256 % 256) +
      65536 * ((36 + n * 2) % 4294967296 / 65536 % 256) +
      16777216 * ((36 + n * 2) % 4294967296 / 16777216 % 256) := by
    rw [wavHeader_eq]
    rfl
  rw [e]
  omega

lemma wav_decode40 (r n : ℕ) (pcm : List ℕ) :
    decodeU32le (wavHeader r n ++ pcm) 40 = n * 2 % 4294967296 := by
  have e : decodeU32le (wavHeader r n ++ pcm) 40 =
      n * 2 % 4294967296 % 256 +
      256 * (n * 2 % 4294967296 / 256 % 256) +
      65536 * (n * 2 % 4294967296 / 65536 % 256) +
      16777216 * (n * 2 % 4294967296 / 16777216 % 256) := by
    rw [wavHeader_eq]
    rfl
  rw [e]
  omega

lemma wav_decode28 (r n : ℕ) (pcm : List ℕ) :
    decodeU32le (wavHeader r n ++ pcm) 28 = r * 2 % 4294967296 := by
  have e : decodeU32le (wavHeader r n ++ pcm) 28 =
      r * 2 % 4294967296 % 256 +
      256 * (r * 2 % 4294967296 / 256 % 256) +
      65536 * (r * 2 % 4294967296 / 65536 % 256) +
      16777216 * (r * 2 % 4294967296 / 16777216 % 256) := by
    rw [wavHeader_eq]
    rfl
  rw [e]
  omega

lemma wav_decode22 (r n : ℕ) (pcm : List ℕ) :
    decodeU16le (wavHeader r n ++ pcm) 22 = 1 := by
  rw [wavHeader_eq]
  rfl

lemma wav_decode32 (r n : ℕ) (pcm : List ℕ) :
    decodeU16le (wavHeader r n ++ pcm) 32 = 2 := by
  rw [wavHeader_eq]
  rfl

lemma pcmData_length (xs : List ℚ) : (pcmData xs).length = 2 * xs.length := by
  induction xs with
  | nil => rfl
  | cons x xs ih =>
      have h2 : (i16leBytes (pcm16 x)).length = 2 := rfl
      show (i16leBytes (pcm16 x) ++ pcmData xs).length = 2 * (x :: xs).length
      rw [List.length_append, ih, h2, List.length_cons]
      ring

lemma getD_append_right {α : Type} (l₁ l₂ : List α) (d : α) (k : ℕ) :
    (l₁ ++ l₂).getD (l₁.length + k) d = l₂.getD k d := by
  induction l₁ with
  | nil => simp
  | cons a t ih =>
      rw [show (a :: t).length + k = (t.length + k) + 1 from by
        rw [List.length_cons]; ring]
      rw [List.cons_append, List.getD_cons_succ]
      exact ih

lemma pcmData_getD (xs : List ℚ) : ∀ i : ℕ, i < xs.length →
    (pcmData xs).getD (2 * i) 0 =
      ((pcm16 (xs.getD i 0)).emod 65536).toNat % 256 ∧
    (pcmData xs).getD (2 * i + 1) 0 =
      ((pcm16 (xs.getD i 0)).emod 65536).toNat / 256 % 256 := by
  induction xs with
  | nil => intro i hi; simp at hi
  | cons x xs ih =>
      intro i hi
      cases i with
      | zero => exact ⟨rfl, rfl⟩
      | succ j =>
          have hj : j < xs.length := by simpa using hi
          have h0 := ih j hj
          constructor
          · rw [show 2 * (j + 1) = 2 * j + 1 + 1 from by ring]
            exact h0.1
          · rw [show 2 * (j + 1) + 1 = (2 * j + 1) + 1 + 1 from by ring]
            exact h0.2

/-! ### C6: byte-exact header layout -/

/-- C6: encoding a buffer of n mono samples yields exactly 44 + 2n
bytes, starting with the RIFF / WAVE / fmt-space / data markers at
offsets 0, 8, 12 and 36, with the little-endian 32-bit values at
offsets 4 and 40 equal to 36 + 2n and 2n. -/
theorem bufferToWav_layout (sampleRate : ℕ) (xs : List ℚ)
    (h : 36 + 2 * xs.length < 4294967296) :
    (bufferToWav (AudioBuffer.mk sampleRate [xs])).length =
      44 + 2 * xs.length ∧
    (bufferToWav (AudioBuffer.mk sampleRate [xs])).take 4 =
      asciiBytes ("RIFF") ∧
    ((bufferToWav (AudioBuffer.mk sampleRate [xs])).drop 8).take 4 =
      asciiBytes ("WAVE") ∧
    ((bufferToWav (AudioBuffer.mk sampleRate [xs])).drop 12).take 4 =
      asciiBytes ("fmt ") ∧
    ((bufferToWav (AudioBuffer.mk sampleRate [xs])).drop 36).take 4 =
      asciiBytes ("data") ∧
    decodeU32le (bufferToWav (AudioBuffer.mk sampleRate [xs])) 4 =
      36 + 2 * xs.length ∧
    decodeU32le (bufferToWav (AudioBuffer.mk sampleRate [xs])) 40 =
      2 * xs.length := by
  refine ⟨?_, rfl, rfl, rfl, rfl, ?_, ?_⟩
  · show (wavHeader sampleRate
        (AudioBuffer.mk sampleRate [xs]).length ++
        pcmData ((AudioBuffer.mk sampleRate [xs]).channels.headD
          [])).length = 44 + 2 * xs.length
    rw [List.length_append, wavHeader_length]
    have : ((AudioBuffer.mk sampleRate [xs]).channels.headD []) = xs := rfl
    rw [this, pcmData_length]
  · show decodeU32le (wavHeader sampleRate
        (AudioBuffer.mk sampleRate [xs]).length ++
        pcmData ((AudioBuffer.mk sampleRate [xs]).channels.headD [])) 4 =
      36 + 2 * xs.length
    rw [wav_decode4]
    have hlen : (AudioBuffer.mk sampleRate [xs]).length = xs.length := rfl
    rw [hlen]
    omega
  · show decodeU32le (wavHeader sampleRate
        (AudioBuffer.mk sampleRate [xs]).length ++
        pcmData ((AudioBuffer.mk sampleRate [xs]).channels.headD [])) 40 =
      2 * xs.length
    rw [wav_decode40]
    have hlen : (AudioBuffer.mk sampleRate [xs]).length = xs.length := rfl
    rw [hlen]
    omega

/-- Witness for C6 at a one-sample mono buffer. -/
theorem bufferToWav_layout_witness :
    (bufferToWav (AudioBuffer.mk 16000 [[(0 : ℚ)]])).length =
      44 + 2 * ([(0 : ℚ)]).length ∧
    (bufferToWav (AudioBuffer.mk 16000 [[(0 : ℚ)]])).take 4 =
      asciiBytes ("RIFF") ∧
    ((bufferToWav (AudioBuffer.mk 16000 [[(0 : ℚ)]])).drop 8).take 4 =
      asciiBytes ("WAVE") ∧
    ((bufferToWav (AudioBuffer.mk 16000 [[(0 : ℚ)]])).drop 12).take 4 =
      asciiBytes ("fmt ") ∧
    ((bufferToWav (AudioBuffer.mk 16000 [[(0 : ℚ)]])).drop 36).take 4 =
      asciiBytes ("data") ∧
    decodeU32le (bufferToWav (AudioBuffer.mk 16000 [[(0 : ℚ)]])) 4 =
      36 + 2 * ([(0 : ℚ)]).length ∧
    decodeU32le (bufferToWav (AudioBuffer.mk 16000 [[(0 : ℚ)]])) 40 =
      2 * ([(0 : ℚ)]).length :=
  bufferToWav_layout 16000 [(0 : ℚ)] (by decide)

/-! ### C7: per-sample 16-bit conversion -/

/-- C7: the 16-bit payload value stored for sample i is the clamp of
the sample to [-1, 1], scaled by 32768 when negative and by 32767 when
non-negative, truncated to an integer and written in little-endian
two's-complement byte order at offsets 44 + 2i and 45 + 2i. -/
theorem bufferToWav_sample (buffer : AudioBuffer) (i : ℕ)
    (hi : i < buffer.length) :
    let x := (buffer.channels.headD []).getD i 0
    let sample := max (-1 : ℚ) (min 1 x)
    let v := ((ratTrunc (if sample < 0 then sample * 32768
        else sample * 32767)).emod 65536).toNat
    (bufferToWav buffer).getD (44 + 2 * i) 0 = v % 256 ∧
    (bufferToWav buffer).getD (44 + 2 * i + 1) 0 = v / 256 % 256 := by
  intro x sample v
  have hi' : i < (buffer.channels.headD []).length := hi
  constructor
  · rw [bufferToWav,
      show (44 : ℕ) + 2 * i =
        (wavHeader buffer.sampleRate buffer.length).length + 2 * i from by
          rw [wavHeader_length],
      getD_append_right]
    exact (pcmData_getD (buffer.channels.headD []) i hi').1
  · rw [bufferToWav,
      show (44 : ℕ) + 2 * i + 1 =
        (wavHeader buffer.sampleRate buffer.length).length + (2 * i + 1)
        from by rw [wavHeader_length]; ring,
      getD_append_right]
    exact (pcmData_getD (buffer.channels.headD []) i hi').2

/-- Witness for C7: the sample 1/2 is stored as
trunc(1/2 · 32767) = 16383 = 0x3FFF, bytes 255 and 63. -/
theorem bufferToWav_sample_witness :
    (bufferToWav (AudioBuffer.mk 16000 [[-(3/4), 1/2]])).getD 46 0 = 255 ∧
    (bufferToWav (AudioBuffer.mk 16000 [[-(3/4), 1/2]])).getD 47 0 = 63 := by
  have h := bufferToWav_sample (AudioBuffer.mk 16000 [[-(3/4), 1/2]]) 1
    (by with_unfolding_all decide)
  exact ⟨h.1.trans (by with_unfolding_all rfl),
    h.2.trans (by with_unfolding_all rfl)⟩

/-! ### C10: the encoder always declares one channel -/

/-- C10: whatever the channel count of the buffer, the produced WAV
declares 1 channel at offset 22, byte rate sampleRate·2 at offset 28
and block align 2 at offset 32, and the whole output equals the
encoding of the buffer restricted to channel 0 — additional channels
are silently omitted. -/
theorem bufferToWav_mono (buffer : AudioBuffer)
    (h : buffer.sampleRate * 2 < 4294967296) :
    decodeU16le (bufferToWav buffer) 22 = 1 ∧
    decodeU32le (bufferToWav buffer) 28 = buffer.sampleRate * 2 ∧
    decodeU16le (bufferToWav buffer) 32 = 2 ∧
    bufferToWav buffer =
      bufferToWav (AudioBuffer.mk buffer.sampleRate
        [buffer.channels.headD []]) := by
  refine ⟨?_, ?_, ?_, rfl⟩
  · exact wav_decode22 buffer.sampleRate buffer.length
      (pcmData (buffer.channels.headD []))
  · show decodeU32le (wavHeader buffer.sampleRate buffer.length ++
        pcmData (buffer.channels.headD [])) 28 = buffer.sampleRate * 2
    rw [wav_decode28]
    omega
  · exact wav_decode32 buffer.sampleRate buffer.length
      (pcmData (buffer.channels.headD []))

/-- Witness for C10 at a concrete two-channel buffer. -/
theorem bufferToWav_mono_witness :
    decodeU16le (bufferToWav (AudioBuffer.mk 16000 [[0], [1]])) 22 = 1 ∧
    decodeU32le (bufferToWav (AudioBuffer.mk 16000 [[0], [1]])) 28 = 32000 ∧
    decodeU16le (bufferToWav (AudioBuffer.mk 16000 [[0], [1]])) 32 = 2 ∧
    bufferToWav (AudioBuffer.mk 16000 [[0], [1]]) =
      bufferToWav (AudioBuffer.mk 16000 [[0]]) := by
  have h := bufferToWav_mono (AudioBuffer.mk 16000 [[0], [1]]) (by decide)
  exact ⟨h.1, h.2.1, h.2.2.1, h.2.2.2⟩

end AudioLinguist
